import Mathlib

/-!
Verification development for the multi-agent task-pipeline server
(`server.js`).  The JavaScript source is shallowly embedded: the planner,
the execution engine, the in-memory job registry and the two HTTP
endpoints become pure Lean functions.  Mutation of the single job record
is modelled by explicit state passing; the sequence of states the record
goes through at the creation point and at every suspend point of the
engine (the `await` at the top of each step) is returned alongside the
final record, so that invariants over observable states can be stated.
Randomness (`Math.random()`) is injected as a supplied source of rational
draws in `[0,1)`, exactly as the design notes of the system suggest for
testing.  JavaScript numbers are modelled by `JSNum` (NaN, infinities, or
an exact rational); decimal string parsing follows the ECMAScript
`StringToNumber` rules for whitespace, signs, `Infinity`, decimal,
hexadecimal, octal and binary literals, with exact rationals in place of
binary doubles.
-/

/-! ## JavaScript number model -/

/-- JavaScript number: NaN, an infinity, or a finite value (modelled as an
exact rational). -/
inductive JSNum where
  | nan
  | posInf
  | negInf
  | num (q : ℚ)
deriving Repr, DecidableEq

/-- Model of `Math.min` restricted to two arguments: NaN propagates,
otherwise the usual minimum with infinities. -/
def jsMin : JSNum → JSNum → JSNum
  | .nan, _ => .nan
  | _, .nan => .nan
  | .negInf, _ => .negInf
  | _, .negInf => .negInf
  | .posInf, b => b
  | a, .posInf => a
  | .num a, .num b => .num (min a b)

/-- Model of `Math.max` restricted to two arguments: NaN propagates,
otherwise the usual maximum with infinities. -/
def jsMax : JSNum → JSNum → JSNum
  | .nan, _ => .nan
  | _, .nan => .nan
  | .posInf, _ => .posInf
  | _, .posInf => .posInf
  | .negInf, b => b
  | a, .negInf => a
  | .num a, .num b => .num (max a b)

/-- Comparison `x < y` where `x` is a real draw and `y` a JavaScript
number; any comparison against NaN is false. -/
def jsLtNum (x : ℚ) : JSNum → Bool
  | .nan => false
  | .posInf => true
  | .negInf => false
  | .num q => decide (x < q)

/-! ### ECMAScript string-to-number conversion (`Number(s)`) -/

/-- Numeric value of a list of decimal digit characters. -/
def digitsVal (cs : List Char) : Nat :=
  cs.foldl (fun a c => 10 * a + (c.toNat - 48)) 0

/-- Check for a hexadecimal digit. -/
def isHexDigitCh (c : Char) : Bool :=
  c.isDigit || (97 ≤ c.toNat && c.toNat ≤ 102) || (65 ≤ c.toNat && c.toNat ≤ 70)

/-- Value of one hexadecimal digit character. -/
def hexDigitVal (c : Char) : Nat :=
  if c.isDigit then c.toNat - 48
  else if 97 ≤ c.toNat then c.toNat - 87
  else c.toNat - 55

/-- Numeric value of a digit list in a given radix. -/
def radixVal (r : Nat) (cs : List Char) : Nat :=
  cs.foldl (fun a c => r * a + hexDigitVal c) 0

/-- Exponent part of a decimal literal: optional sign then nonempty
digits. -/
def parseExpPart : List Char → Option Int
  | '+' :: ds => if ds ≠ [] ∧ ds.all Char.isDigit then some (digitsVal ds) else none
  | '-' :: ds => if ds ≠ [] ∧ ds.all Char.isDigit then some (-(digitsVal ds : Int)) else none
  | ds => if ds ≠ [] ∧ ds.all Char.isDigit then some (digitsVal ds) else none

/-- Mantissa of a decimal literal: `digits`, `digits.digits`, `.digits`
or `digits.`. -/
def parseMantissa (cs : List Char) : Option ℚ :=
  let ipart := cs.takeWhile (fun c => c ≠ '.')
  let rest := cs.dropWhile (fun c => c ≠ '.')
  match rest with
  | [] =>
      if ipart ≠ [] ∧ ipart.all Char.isDigit then some (digitsVal ipart : ℚ) else none
  | _ :: fpart =>
      if (ipart ≠ [] ∨ fpart ≠ []) ∧ ipart.all Char.isDigit ∧ fpart.all Char.isDigit then
        some ((digitsVal ipart : ℚ) + (digitsVal fpart : ℚ) / (10 : ℚ) ^ fpart.length)
      else none

/-- Unsigned decimal literal with optional exponent. -/
def parseUnsignedDec (cs : List Char) : Option ℚ :=
  let mant := cs.takeWhile (fun c => c ≠ 'e' ∧ c ≠ 'E')
  let rest := cs.dropWhile (fun c => c ≠ 'e' ∧ c ≠ 'E')
  match rest with
  | [] => parseMantissa mant
  | _ :: ex => do
      let m ← parseMantissa mant
      let e ← parseExpPart ex
      some (m * (10 : ℚ) ^ e)

/-- Signed decimal literal or `Infinity`. -/
def parseSignedDec (cs : List Char) : JSNum :=
  let body := match cs with
    | '+' :: r => r
    | '-' :: r => r
    | r => r
  let neg : Bool := match cs with
    | '-' :: _ => true
    | _ => false
  if body = "Infinity".data then (if neg then .negInf else .posInf)
  else
    match parseUnsignedDec body with
    | some q => .num (if neg then -q else q)
    | none => .nan

/-- Model of the ECMAScript abstract operation behind `Number(s)` for
string arguments: trim whitespace, empty means zero, then a radix
literal or a signed decimal literal; anything else is NaN.  Finite
values are kept as exact rationals rather than rounded to binary
doubles. -/
def jsNumber (s : String) : JSNum :=
  let cs := ((s.data.dropWhile Char.isWhitespace).reverse.dropWhile Char.isWhitespace).reverse
  match cs with
  | [] => .num 0
  | '0' :: c :: ds =>
      if (c = 'x' ∨ c = 'X') ∧ ds ≠ [] ∧ ds.all isHexDigitCh then .num (radixVal 16 ds)
      else if (c = 'o' ∨ c = 'O') ∧ ds ≠ [] ∧ ds.all (fun d => 48 ≤ d.toNat ∧ d.toNat ≤ 55) then
        .num (radixVal 8 ds)
      else if (c = 'b' ∨ c = 'B') ∧ ds ≠ [] ∧ ds.all (fun d => d = '0' ∨ d = '1') then
        .num (radixVal 2 ds)
      else parseSignedDec cs
  | _ => parseSignedDec cs

/-! ## Data model (section 3 of the design) -/

/-- Agent specification produced by the planner: identity, display name,
role description and total step count. -/
structure AgentSpec where
  id : String
  name : String
  role : String
  steps : Nat
deriving Repr, DecidableEq

/-- Output payload attached to a completed agent run. -/
structure AgentOutput where
  summary : String
deriving Repr, DecidableEq

/-- Per-job execution record of one agent: the mutable object the engine
pushes into `job.agents` and updates in place. -/
structure AgentRun where
  id : String
  name : String
  role : String
  status : String
  progress : Nat
  logs : List String
  output : Option AgentOutput
deriving Repr, DecidableEq

/-- Artifact attached to the final result: chart-like with a renderable
reference, or tabular with inline data. -/
inductive Artifact where
  | chart (format url description : String)
  | table (format : String) (data : List (String × Nat))
deriving Repr, DecidableEq

/-- Terminal result record built after all agents succeed. -/
structure JobResult where
  title : String
  request : String
  synthesizedSummary : String
  artifacts : List Artifact
deriving Repr, DecidableEq

/-- Job record held by the registry. -/
structure Job where
  id : String
  status : String
  createdAt : Nat
  agents : List AgentRun
  result : Option JobResult
deriving Repr, DecidableEq

/-! ## Events (section 4.4 of the design)

The live engine serializes the whole current `AgentRun` object in its
`agent-start` payload, while replay serializes only `{id, name, role}`;
the two payload shapes are two constructors carrying the same event
name. -/

/-- One named server-sent event together with its structured payload. -/
inductive Event where
  | jobStart (jobId : String) (createdAt : Nat)
  | plan (agents : List AgentSpec)
  | agentStart (agent : AgentRun)
  | agentStartBrief (id name role : String)
  | agentProgress (id : String) (progress : Nat) (log : String)
  | agentComplete (id : String) (output : Option AgentOutput)
  | jobComplete (jobId : String) (result : Option JobResult)
  | jobError (message : String) (agentId : Option String)
deriving Repr, DecidableEq

/-- Name of the SSE channel an event is written to. -/
def Event.name : Event → String
  | .jobStart _ _ => "job-start"
  | .plan _ => "plan"
  | .agentStart _ => "agent-start"
  | .agentStartBrief _ _ _ => "agent-start"
  | .agentProgress _ _ _ => "agent-progress"
  | .agentComplete _ _ => "agent-complete"
  | .jobComplete _ _ => "job-complete"
  | .jobError _ _ => "job-error"

/-! ## Planner (`planAgents`, server.js lines 22-42) -/

/-- Baseline stage 1. -/
def plannerSpec : AgentSpec := ⟨"planner", "Planner", "Break down the request", 1⟩

/-- Baseline stage 2. -/
def researcherSpec : AgentSpec := ⟨"researcher", "Researcher", "Gather data and sources", 3⟩

/-- Baseline stage 3. -/
def analystSpec : AgentSpec := ⟨"analyst", "Analyst", "Analyze trends and insights", 3⟩

/-- Baseline stage 4. -/
def visualizerSpec : AgentSpec := ⟨"visualizer", "Visualizer", "Create charts/tables", 2⟩

/-- Baseline stage 5. -/
def editorSpec : AgentSpec := ⟨"editor", "Editor", "Compose final structured report", 2⟩

/-- Stage inserted by the implementation-keyword rule. -/
def engineerSpec : AgentSpec := ⟨"engineer", "Engineer", "Prototype or integrate APIs", 2⟩

/-- Stage inserted by the finance-keyword rule. -/
def financeSpec : AgentSpec := ⟨"finance", "Finance SME", "Validate financial logic", 2⟩

/-- Fixed 5-stage baseline pipeline (`baseAgents` in the source). -/
def baseAgents : List AgentSpec :=
  [plannerSpec, researcherSpec, analystSpec, visualizerSpec, editorSpec]

/-- Substring test over character lists, modelling
`String.prototype.includes`. -/
def listContains (pat : List Char) : List Char → Bool
  | [] => pat.isEmpty
  | c :: rest => pat.isPrefixOf (c :: rest) || listContains pat rest

/-- Model of `s.includes(pat)` on JavaScript strings. -/
def strIncludes (s pat : String) : Bool :=
  listContains pat.data s.data

/-- Case folding used by the planner (`requestText.toLowerCase()`),
modelled on the ASCII fragment of Unicode lowering, which covers the
keyword alphabet. -/
def jsToLower (s : String) : String :=
  ⟨s.data.map Char.toLower⟩

/-- Model of `arr.splice(i, 0, x)`: insert `x` at index `i`. -/
def spliceInsert (l : List AgentSpec) (i : Nat) (x : AgentSpec) : List AgentSpec :=
  l.take i ++ [x] ++ l.drop i

/-- Planner (`planAgents` in the source): case-fold the request, start
from the baseline, insert the engineer at index 2 when an
implementation keyword occurs, then prepend the finance agent when a
finance keyword occurs.  Case folding uses ASCII lowering, the fragment
of `toLowerCase` relevant to the keyword set. -/
def planAgents (requestText : String) : List AgentSpec :=
  let lower := jsToLower requestText
  let agents := baseAgents
  let agents :=
    if strIncludes lower "code" || strIncludes lower "api" then
      spliceInsert agents 2 engineerSpec
    else agents
  let agents :=
    if strIncludes lower "financial" || strIncludes lower "quarter" then
      financeSpec :: agents
    else agents
  agents

/-! ## Execution engine (`executeJob`, server.js lines 45-106) -/

/-- Fresh `AgentRun` pushed into `job.agents` when an agent starts
(server.js line 57). -/
def initRun (spec : AgentSpec) : AgentRun :=
  ⟨spec.id, spec.name, spec.role, "running", 0, [], none⟩

/-- Integer progress `Math.round((step / totalSteps) * 100)`
(server.js line 73), as a natural number: round half up. -/
def stepProgress (step tot : Nat) : Nat :=
  (200 * step + tot) / (2 * tot)

/-- Log line appended after a successful step (server.js line 74). -/
def mkLog (name : String) (step tot : Nat) : String :=
  name ++ ": completed step " ++ toString step ++ "/" ++ toString tot

/-- Simulated output of a completed agent (server.js line 81). -/
def outputOf (spec : AgentSpec) : AgentOutput :=
  ⟨spec.name ++ " completed: " ++ spec.role⟩

/-- Error message emitted when a failure draw succeeds
(server.js line 68). -/
def mkErrMsg (name : String) (step : Nat) : String :=
  name ++ " encountered an error at step " ++ toString step

/-- Result of driving one agent: the events written, the run states at
each suspend point inside the step loop, the final run record, and the
step at which a failure draw succeeded (if any). -/
structure AgentResult where
  events : List Event
  states : List AgentRun
  run : AgentRun
  failStep : Option Nat
deriving Repr, DecidableEq

/-- Step loop of one agent (server.js lines 62-78 plus the completion
block 80-84).  The pending list is the remaining step numbers of the
`for` loop; `cur` is the run record as mutated so far.  Each iteration
suspends (the simulated work delay) — `cur` at that moment is recorded
in `states` — then draws failure; on failure the run is marked failed
and the loop aborts, otherwise progress and a log line are written and
an `agent-progress` event is emitted. -/
def runSteps (spec : AgentSpec) (failsAt : Nat → Bool) : List Nat → AgentRun → AgentResult
  | [], cur =>
      let out := outputOf spec
      { events := [.agentComplete spec.id (some out)], states := [],
        run := { cur with status := "completed", output := some out }, failStep := none }
  | step :: rest, cur =>
      if failsAt step then
        { events := [.jobError (mkErrMsg spec.name step) (some spec.id)], states := [cur],
          run := { cur with status := "failed" }, failStep := some step }
      else
        let progress := stepProgress step spec.steps
        let log := mkLog spec.name step spec.steps
        let cur2 := { cur with progress := progress, logs := cur.logs ++ [log] }
        let r := runSteps spec failsAt rest cur2
        { events := .agentProgress spec.id progress log :: r.events, states := cur :: r.states,
          run := r.run, failStep := r.failStep }

/-- Result of the agent loop: events, the final `job.agents` list, the
`job.agents` value at every suspend point, and the position of the
first successful failure draw. -/
structure LoopResult where
  events : List Event
  agents : List AgentRun
  snaps : List (List AgentRun)
  failPoint : Option (Nat × Nat)
deriving Repr, DecidableEq

/-- Agent loop of the engine (server.js lines 56-85): for each planned
agent push a fresh run, emit `agent-start`, and drive its steps; a
failure aborts the whole loop. -/
def runAgentsLoop (failsAt : Nat → Nat → Bool) : Nat → List AgentRun → List AgentSpec → LoopResult
  | _, done, [] => { events := [], agents := done, snaps := [], failPoint := none }
  | idx, done, spec :: rest =>
      let r := runSteps spec (failsAt idx) (List.range' 1 spec.steps) (initRun spec)
      let evs := Event.agentStart (initRun spec) :: r.events
      let snaps := r.states.map (fun st => done ++ [st])
      match r.failStep with
      | some s =>
          { events := evs, agents := done ++ [r.run], snaps := snaps,
            failPoint := some (idx, s) }
      | none =>
          let rec2 := runAgentsLoop failsAt (idx + 1) (done ++ [r.run]) rest
          { events := evs ++ rec2.events, agents := rec2.agents,
            snaps := snaps ++ rec2.snaps, failPoint := rec2.failPoint }

/-- Fixed illustrative artifacts of the final result
(server.js lines 92-99). -/
def fixedArtifacts : List Artifact :=
  [ .chart "svg" "/placeholder-chart.svg" "Example chart artifact",
    .table "json" [("Q1", 120), ("Q2", 140), ("Q3", 160)] ]

/-- Full execution record of one `executeJob` call: the event sequence
written to the channel, the registry record at creation
(server.js lines 49-50), the job record at every suspend point, the
final job record, and the failure position. -/
structure JobExecResult where
  events : List Event
  created : Job
  snapshots : List Job
  job : Job
  failPoint : Option (Nat × Nat)
deriving Repr, DecidableEq

/-- Engine core on an already-computed plan (server.js lines 48-106):
create the running job record, emit `job-start` and `plan`, drive the
agents, then either stop at the failure (status `error`) or build the
result, store it and emit `job-complete` (status `completed`). -/
def runJob (jobId requestText : String) (agents : List AgentSpec)
    (failsAt : Nat → Nat → Bool) (now : Nat) : JobExecResult :=
  let created : Job :=
    { id := jobId, status := "running", createdAt := now, agents := [], result := none }
  let lr := runAgentsLoop failsAt 0 [] agents
  let headEvents := [Event.jobStart jobId now, Event.plan agents]
  let mkSnap := fun (ags : List AgentRun) => { created with agents := ags }
  match lr.failPoint with
  | some p =>
      { events := headEvents ++ lr.events,
        created := created,
        snapshots := created :: lr.snaps.map mkSnap,
        job := { created with status := "error", agents := lr.agents },
        failPoint := some p }
  | none =>
      let final : JobResult :=
        { title := "Task Result", request := requestText,
          synthesizedSummary :=
            String.intercalate "\n"
              (lr.agents.map (fun a => (a.output.map AgentOutput.summary).getD "")),
          artifacts := fixedArtifacts }
      { events := headEvents ++ lr.events ++ [Event.jobComplete jobId (some final)],
        created := created,
        snapshots := created :: lr.snaps.map mkSnap,
        job := { created with status := "completed", agents := lr.agents, result := some final },
        failPoint := none }

/-- `executeJob` (server.js line 45): plan from the request text, then
run; each failure draw at agent `i`, step `s` is
`Math.random() < failRate` with the injected draw `rand i s`. -/
def executeJob (jobId requestText : String) (failRate : JSNum)
    (rand : Nat → Nat → ℚ) (now : Nat) : JobExecResult :=
  runJob jobId requestText (planAgents requestText)
    (fun i s => jsLtNum (rand i s) failRate) now

/-! ## Job registry and endpoints (server.js lines 13, 108-147) -/

/-- Process-wide job registry (`const jobs = new Map()`): association
list keyed by job identity, insertion-ordered like a JavaScript `Map`. -/
abbrev Registry := List (String × Job)

/-- Model of `jobs.get(id)`. -/
def regGet (reg : Registry) (k : String) : Option Job :=
  (reg.find? (fun p => p.1 == k)).map (fun p => p.2)

/-- Model of `jobs.set(id, job)`: replace in place, or append a new
binding. -/
def regSet (reg : Registry) (k : String) (v : Job) : Registry :=
  if reg.any (fun p => p.1 == k) then
    reg.map (fun p => if p.1 == k then (k, v) else p)
  else reg ++ [(k, v)]

/-- JavaScript value of the `request` field of a submission payload. -/
inductive JsVal where
  | undef
  | jsNull
  | bool (b : Bool)
  | number (n : JSNum)
  | string (s : String)
deriving Repr, DecidableEq

/-- JavaScript truthiness. -/
def jsTruthy : JsVal → Bool
  | .undef => false
  | .jsNull => false
  | .bool b => b
  | .number .nan => false
  | .number .posInf => true
  | .number .negInf => true
  | .number (.num q) => decide (q ≠ 0)
  | .string s => decide (s ≠ "")

/-- Test `typeof v === "string"`. -/
def jsIsString : JsVal → Bool
  | .string _ => true
  | _ => false

/-- Submission endpoint (server.js lines 108-115): reject when the
`request` field is falsy or not a string, otherwise return the freshly
generated identity (`nanoid()`, injected here as `freshId`).  The
registry is returned unchanged in both branches: submission never
creates a job record. -/
def submit (reg : Registry) (requestField : JsVal) (freshId : String) :
    Registry × Except String String :=
  if !jsTruthy requestField || !jsIsString requestField then
    (reg, .error "Missing request string")
  else (reg, .ok freshId)

/-- Replay of a completed job (server.js lines 128-137), reconstructed
only from the stored job record.  The stored `AgentRun` objects carry no
`steps` property, so `a.steps || 1` always evaluates to `1` in the
replayed plan payload. -/
def replayEvents (jobId : String) (job : Job) : List Event :=
  Event.jobStart jobId job.createdAt ::
  Event.plan (job.agents.map (fun a => ⟨a.id, a.name, a.role, 1⟩)) ::
  (job.agents.flatMap (fun a =>
    [Event.agentStartBrief a.id a.name a.role,
     Event.agentProgress a.id 100 (a.name ++ " completed"),
     Event.agentComplete a.id a.output])) ++
  [Event.jobComplete jobId job.result]

/-- Effective failure probability of a stream request
(server.js line 142): a string override is parsed with `Number` and
clamped by `Math.max(0, Math.min(1, _))`; anything else means `0`. -/
def effectiveFailRate : Option String → JSNum
  | some s => jsMax (.num 0) (jsMin (.num 1) (jsNumber s))
  | none => .num 0

/-- Stream endpoint (server.js lines 117-147): replay when the job
exists with status `completed`; otherwise start a live execution with
the query text (or the default request) and the clamped failure rate,
and record the job under the requested identity.  Returns the final
registry and the events written to the response. -/
def streamOpen (reg : Registry) (jobId : String) (q failRateStr : Option String)
    (rand : Nat → Nat → ℚ) (now : Nat) : Registry × List Event :=
  let startLive : Registry × List Event :=
    let text := match q with
      | some s => s
      | none => "General business analysis request"
    let fail := effectiveFailRate failRateStr
    let r := executeJob jobId text fail rand now
    (regSet reg jobId r.job, r.events)
  match regGet reg jobId with
  | some existing =>
      if existing.status = "completed" then (reg, replayEvents jobId existing)
      else startLive
  | none => startLive

/-! ## Derived forms

Closed forms of the run records and event blocks the engine produces,
used to state and prove its characterization. -/

/-- Run record of an agent after `d` successful steps: progress and log
lines as written by steps `1..d`. -/
def runState (spec : AgentSpec) (d : Nat) : AgentRun :=
  { id := spec.id, name := spec.name, role := spec.role, status := "running",
    progress := stepProgress d spec.steps,
    logs := (List.range' 1 d).map (fun k => mkLog spec.name k spec.steps),
    output := none }

/-- The `agent-progress` event emitted by step `j` of an agent. -/
def progEvt (spec : AgentSpec) (j : Nat) : Event :=
  .agentProgress spec.id (stepProgress j spec.steps) (mkLog spec.name j spec.steps)

/-- Event block of one fully successful agent: `agent-start`, one
`agent-progress` per step, `agent-complete`. -/
def agentBlock (spec : AgentSpec) : List Event :=
  Event.agentStart (initRun spec) ::
    ((List.range' 1 spec.steps).map (progEvt spec) ++
      [Event.agentComplete spec.id (some (outputOf spec))])

/-- Final run record of a fully successful agent. -/
def completedRun (spec : AgentSpec) : AgentRun :=
  { runState spec spec.steps with status := "completed", output := some (outputOf spec) }

/-- Values of `job.agents` at the successive suspend points of a fully
successful stretch of agents, given the runs already completed. -/
def snapsOf (done : List AgentRun) : List AgentSpec → List (List AgentRun)
  | [] => []
  | spec :: rest =>
      (List.range' 0 spec.steps).map (fun j => done ++ [runState spec j]) ++
        snapsOf (done ++ [completedRun spec]) rest

/-- Job record as first stored by the engine (server.js lines 49-50). -/
def createdJob (jid : String) (now : Nat) : Job :=
  { id := jid, status := "running", createdAt := now, agents := [], result := none }

/-- Result record of a fully successful run over a given plan. -/
def successResult (req : String) (specs : List AgentSpec) : JobResult :=
  { title := "Task Result", request := req,
    synthesizedSummary :=
      String.intercalate "\n" (specs.map (fun spec => spec.name ++ " completed: " ++ spec.role)),
    artifacts := fixedArtifacts }

/-- Copy of an agent specification with a unit step count. -/
def oneStepSpec (spec : AgentSpec) : AgentSpec :=
  { spec with steps := 1 }

/-- Degenerate random source drawing `0` forever (the most failure-prone
draw allowed, since draws live in `[0,1)`). -/
def zeroRand : Nat → Nat → ℚ :=
  fun _ _ => 0

/-- Failure oracle that never fires. -/
def neverFail : Nat → Nat → Bool :=
  fun _ _ => false

/-! ## Arithmetic of the progress formula -/

theorem stepProgress_zero (n : Nat) : stepProgress 0 n = 0 := by
  unfold stepProgress
  cases n with
  | zero => rfl
  | succ m => exact Nat.div_eq_of_lt (by omega)

theorem stepProgress_self (n : Nat) (h : 1 ≤ n) : stepProgress n n = 100 := by
  unfold stepProgress
  have h2 : 200 * n + n = n + 2 * n * 100 := by ring
  rw [h2, Nat.add_mul_div_left _ _ (by omega), Nat.div_eq_of_lt (by omega)]

theorem stepProgress_lt (k n : Nat) (hk : k < n) (hn : n ≤ 199) : stepProgress k n < 100 := by
  unfold stepProgress
  rw [Nat.div_lt_iff_lt_mul (by omega)]
  omega

/-! ## Run-state recurrences -/

theorem runState_zero (spec : AgentSpec) : runState spec 0 = initRun spec := by
  simp [runState, initRun, stepProgress_zero]

theorem runState_succ (spec : AgentSpec) (d : Nat) :
    runState spec (d + 1) =
      { runState spec d with
          progress := stepProgress (d + 1) spec.steps,
          logs := (runState spec d).logs ++ [mkLog spec.name (d + 1) spec.steps] } := by
  simp only [runState, List.range'_concat, List.map_append, List.map_cons, List.map_nil]
  norm_num [Nat.add_comm]

/-! ## Step-loop characterization -/

theorem runSteps_eq_none (spec : AgentSpec) (f : Nat → Bool) (n : Nat) :
    ∀ d, (runSteps spec f (List.range' (d + 1) n) (runState spec d)).failStep = none →
      runSteps spec f (List.range' (d + 1) n) (runState spec d) =
        { events := (List.range' (d + 1) n).map (progEvt spec) ++
            [Event.agentComplete spec.id (some (outputOf spec))],
          states := (List.range' d n).map (runState spec),
          run := { runState spec (d + n) with
                     status := "completed", output := some (outputOf spec) },
          failStep := none } := by
  induction n with
  | zero =>
      intro d _
      simp [runSteps]
  | succ n ih =>
      intro d h
      rw [List.range'_succ] at h ⊢
      cases hf : f (d + 1) with
      | true => simp [runSteps, hf] at h
      | false =>
          simp only [runSteps, hf, Bool.false_eq_true, if_false] at h ⊢
          rw [show
            ({ runState spec d with
                progress := stepProgress (d + 1) spec.steps,
                logs := (runState spec d).logs ++ [mkLog spec.name (d + 1) spec.steps] } :
              AgentRun) = runState spec (d + 1) from (runState_succ spec d).symm] at h ⊢
          rw [ih (d + 1) h]
          rw [List.range'_succ d n 1, show d + (n + 1) = d + 1 + n from by omega,
            List.map_cons]
          simp [progEvt]

theorem runSteps_eq_some (spec : AgentSpec) (f : Nat → Bool) (n : Nat) :
    ∀ d s, (runSteps spec f (List.range' (d + 1) n) (runState spec d)).failStep = some s →
      ∃ m, m < n ∧ s = d + 1 + m ∧
        runSteps spec f (List.range' (d + 1) n) (runState spec d) =
          { events := (List.range' (d + 1) m).map (progEvt spec) ++
              [Event.jobError (mkErrMsg spec.name s) (some spec.id)],
            states := (List.range' d (m + 1)).map (runState spec),
            run := { runState spec (d + m) with status := "failed" },
            failStep := some s } := by
  induction n with
  | zero =>
      intro d s h
      simp [runSteps] at h
  | succ n ih =>
      intro d s h
      rw [List.range'_succ] at h ⊢
      cases hf : f (d + 1) with
      | true =>
          simp only [runSteps, hf, if_true] at h ⊢
          obtain rfl : d + 1 = s := by simpa using h
          refine ⟨0, by omega, by omega, ?_⟩
          simp [List.range'_one]
      | false =>
          simp only [runSteps, hf, Bool.false_eq_true, if_false] at h ⊢
          rw [show
            ({ runState spec d with
                progress := stepProgress (d + 1) spec.steps,
                logs := (runState spec d).logs ++ [mkLog spec.name (d + 1) spec.steps] } :
              AgentRun) = runState spec (d + 1) from (runState_succ spec d).symm] at h ⊢
          obtain ⟨m, hm, hs, heq⟩ := ih (d + 1) s h
          refine ⟨m + 1, by omega, by omega, ?_⟩
          rw [heq]
          rw [List.range'_succ (d + 1) m 1, List.range'_succ d (m + 1) 1,
            show d + 1 + m = d + (m + 1) from by omega, List.map_cons, List.map_cons]
          simp [progEvt, List.range'_succ]

theorem runSteps_init_none (spec : AgentSpec) (f : Nat → Bool)
    (h : (runSteps spec f (List.range' 1 spec.steps) (initRun spec)).failStep = none) :
    runSteps spec f (List.range' 1 spec.steps) (initRun spec) =
      { events := (List.range' 1 spec.steps).map (progEvt spec) ++
          [Event.agentComplete spec.id (some (outputOf spec))],
        states := (List.range' 0 spec.steps).map (runState spec),
        run := completedRun spec,
        failStep := none } := by
  have h0 : initRun spec = runState spec 0 := (runState_zero spec).symm
  rw [h0] at h ⊢
  have h1 := runSteps_eq_none spec f spec.steps 0 (by simpa using h)
  simpa [completedRun] using h1

theorem runSteps_init_some (spec : AgentSpec) (f : Nat → Bool) (s : Nat)
    (h : (runSteps spec f (List.range' 1 spec.steps) (initRun spec)).failStep = some s) :
    ∃ m, m < spec.steps ∧ s = m + 1 ∧
      runSteps spec f (List.range' 1 spec.steps) (initRun spec) =
        { events := (List.range' 1 m).map (progEvt spec) ++
            [Event.jobError (mkErrMsg spec.name s) (some spec.id)],
          states := (List.range' 0 (m + 1)).map (runState spec),
          run := { runState spec m with status := "failed" },
          failStep := some s } := by
  have h0 : initRun spec = runState spec 0 := (runState_zero spec).symm
  rw [h0] at h ⊢
  obtain ⟨m, hm, hs, heq⟩ := runSteps_eq_some spec f spec.steps 0 s (by simpa using h)
  refine ⟨m, hm, by omega, ?_⟩
  simpa using heq

/-! ## Agent-loop characterization -/

theorem runAgentsLoop_eq_none (f : Nat → Nat → Bool) (specs : List AgentSpec) :
    ∀ idx done, (runAgentsLoop f idx done specs).failPoint = none →
      runAgentsLoop f idx done specs =
        { events := specs.flatMap agentBlock,
          agents := done ++ specs.map completedRun,
          snaps := snapsOf done specs,
          failPoint := none } := by
  induction specs with
  | nil =>
      intro idx done _
      simp [runAgentsLoop, snapsOf]
  | cons spec rest ih =>
      intro idx done h
      cases hr : (runSteps spec (f idx) (List.range' 1 spec.steps) (initRun spec)).failStep with
      | some s => simp [runAgentsLoop, hr] at h
      | none =>
          have hr2 := runSteps_init_none spec (f idx) hr
          simp only [runAgentsLoop, hr] at h ⊢
          rw [hr2] at h ⊢
          simp only at h ⊢
          rw [ih (idx + 1) (done ++ [completedRun spec]) (by simpa using h)]
          simp [agentBlock, snapsOf, List.map_map, List.append_assoc]

theorem runAgentsLoop_eq_some (f : Nat → Nat → Bool) (specs : List AgentSpec) :
    ∀ idx done a s, (runAgentsLoop f idx done specs).failPoint = some (a, s) →
      ∃ i spec m, specs.get? i = some spec ∧ a = idx + i ∧ m < spec.steps ∧ s = m + 1 ∧
        runAgentsLoop f idx done specs =
          { events := (specs.take i).flatMap agentBlock ++
              (Event.agentStart (initRun spec) ::
                ((List.range' 1 m).map (progEvt spec) ++
                  [Event.jobError (mkErrMsg spec.name s) (some spec.id)])),
            agents := done ++ (specs.take i).map completedRun ++
              [{ runState spec m with status := "failed" }],
            snaps := snapsOf done (specs.take i) ++
              (List.range' 0 (m + 1)).map (fun j =>
                (done ++ (specs.take i).map completedRun) ++ [runState spec j]),
            failPoint := some (a, s) } := by
  induction specs with
  | nil =>
      intro idx done a s h
      simp [runAgentsLoop] at h
  | cons spec rest ih =>
      intro idx done a s h
      cases hr : (runSteps spec (f idx) (List.range' 1 spec.steps) (initRun spec)).failStep with
      | some s0 =>
          obtain ⟨m, hm, hs0, heq⟩ := runSteps_init_some spec (f idx) s0 hr
          simp only [runAgentsLoop, hr] at h ⊢
          obtain ⟨rfl, rfl⟩ : idx = a ∧ s0 = s := by simpa using h
          refine ⟨0, spec, m, rfl, by omega, hm, by omega, ?_⟩
          rw [heq]
          simp [List.map_map, snapsOf]
      | none =>
          have hr2 := runSteps_init_none spec (f idx) hr
          simp only [runAgentsLoop, hr] at h ⊢
          rw [hr2] at h ⊢
          simp only at h ⊢
          obtain ⟨i, spec2, m, hget, ha, hm, hs, heq⟩ :=
            ih (idx + 1) (done ++ [completedRun spec]) a s (by simpa using h)
          refine ⟨i + 1, spec2, m, by simpa using hget, by omega, hm, hs, ?_⟩
          rw [heq]
          simp [agentBlock, snapsOf, List.map_map, List.append_assoc]

/-! ## Failure-oracle facts -/

theorem jsLtNum_zero (x : ℚ) (h : 0 ≤ x) : jsLtNum x (JSNum.num 0) = false := by
  simp only [jsLtNum, decide_eq_false_iff_not]
  exact not_lt.mpr h

theorem jsLtNum_one (x : ℚ) (h : x < 1) : jsLtNum x (JSNum.num 1) = true := by
  simp only [jsLtNum, decide_eq_true_eq]
  exact h

theorem runSteps_failStep_none (spec : AgentSpec) (g : Nat → Bool) (hg : ∀ k, g k = false) :
    ∀ pending cur, (runSteps spec g pending cur).failStep = none := by
  intro pending
  induction pending with
  | nil => intro cur; simp [runSteps]
  | cons p rest ih =>
      intro cur
      simp only [runSteps, hg p, Bool.false_eq_true, if_false]
      exact ih _

theorem runAgentsLoop_failPoint_none (f : Nat → Nat → Bool) (hf : ∀ i s, f i s = false)
    (specs : List AgentSpec) :
    ∀ idx done, (runAgentsLoop f idx done specs).failPoint = none := by
  induction specs with
  | nil => intro idx done; simp [runAgentsLoop]
  | cons spec rest ih =>
      intro idx done
      have hr := runSteps_failStep_none spec (f idx) (fun k => hf idx k)
        (List.range' 1 spec.steps) (initRun spec)
      simp only [runAgentsLoop, hr]
      exact ih _ _

theorem runAgentsLoop_cons_failPoint_one (f : Nat → Nat → Bool) (hf : ∀ i s, f i s = true)
    (spec : AgentSpec) (rest : List AgentSpec) (idx : Nat) (done : List AgentRun)
    (hs : 1 ≤ spec.steps) :
    (runAgentsLoop f idx done (spec :: rest)).failPoint = some (idx, 1) := by
  obtain ⟨m, hm⟩ : ∃ m, spec.steps = m + 1 := ⟨spec.steps - 1, by omega⟩
  have hr : (runSteps spec (f idx) (List.range' 1 spec.steps) (initRun spec)).failStep =
      some 1 := by
    rw [hm, List.range'_succ]
    simp [runSteps, hf idx 1]
  simp only [runAgentsLoop, hr]

/-! ## Engine characterization -/

theorem runJob_eq_none (jid req : String) (specs : List AgentSpec) (f : Nat → Nat → Bool)
    (now : Nat) (h : (runAgentsLoop f 0 [] specs).failPoint = none) :
    runJob jid req specs f now =
      { events := Event.jobStart jid now :: Event.plan specs ::
          (specs.flatMap agentBlock ++ [Event.jobComplete jid (some (successResult req specs))]),
        created := createdJob jid now,
        snapshots := createdJob jid now ::
          (snapsOf [] specs).map (fun ags => { createdJob jid now with agents := ags }),
        job := { createdJob jid now with
                   status := "completed", agents := specs.map completedRun,
                   result := some (successResult req specs) },
        failPoint := none } := by
  simp only [runJob]
  rw [runAgentsLoop_eq_none f specs 0 [] h]
  simp [successResult, completedRun, outputOf, createdJob, List.map_map, Function.comp]
  have hfun : ((fun (a : AgentRun) => (a.output.getD { summary := "" }).summary) ∘ completedRun) =
      (fun (spec : AgentSpec) => spec.name ++ " completed: " ++ spec.role) :=
    funext fun spec => rfl
  rw [hfun]

theorem runJob_eq_some (jid req : String) (specs : List AgentSpec) (f : Nat → Nat → Bool)
    (now : Nat) (a s : Nat) (h : (runAgentsLoop f 0 [] specs).failPoint = some (a, s)) :
    ∃ i spec m, specs.get? i = some spec ∧ a = i ∧ m < spec.steps ∧ s = m + 1 ∧
      runJob jid req specs f now =
        { events := Event.jobStart jid now :: Event.plan specs ::
            ((specs.take i).flatMap agentBlock ++
              (Event.agentStart (initRun spec) ::
                ((List.range' 1 m).map (progEvt spec) ++
                  [Event.jobError (mkErrMsg spec.name s) (some spec.id)]))),
          created := createdJob jid now,
          snapshots := createdJob jid now ::
            (snapsOf [] (specs.take i) ++
              (List.range' 0 (m + 1)).map (fun j =>
                (specs.take i).map completedRun ++ [runState spec j])).map
              (fun ags => { createdJob jid now with agents := ags }),
          job := { createdJob jid now with
                     status := "error",
                     agents := (specs.take i).map completedRun ++
                       [{ runState spec m with status := "failed" }] },
          failPoint := some (a, s) } := by
  obtain ⟨i, spec, m, hget, ha, hm, hs, heq⟩ := runAgentsLoop_eq_some f specs 0 [] a s h
  refine ⟨i, spec, m, hget, by omega, hm, hs, ?_⟩
  simp only [runJob]
  rw [heq]
  simp [createdJob]

theorem runJob_failPoint (jid req : String) (specs : List AgentSpec) (f : Nat → Nat → Bool)
    (now : Nat) :
    (runJob jid req specs f now).failPoint = (runAgentsLoop f 0 [] specs).failPoint := by
  simp only [runJob]
  cases h : (runAgentsLoop f 0 [] specs).failPoint <;> simp [h]

theorem runJob_created (jid req : String) (specs : List AgentSpec) (f : Nat → Nat → Bool)
    (now : Nat) :
    (runJob jid req specs f now).created = createdJob jid now := by
  simp only [runJob]
  cases h : (runAgentsLoop f 0 [] specs).failPoint <;> simp [h, createdJob]

/-! ## Planner characterization -/

theorem planAgents_eq (req : String) :
    planAgents req =
      (if strIncludes (jsToLower req) "financial" || strIncludes (jsToLower req) "quarter" then
        [financeSpec] else []) ++
      (baseAgents.take 2 ++
        (if strIncludes (jsToLower req) "code" || strIncludes (jsToLower req) "api" then
          [engineerSpec] else []) ++
        baseAgents.drop 2) := by
  simp only [planAgents, spliceInsert]
  cases h1 : strIncludes (jsToLower req) "code" || strIncludes (jsToLower req) "api" <;>
    cases h2 : strIncludes (jsToLower req) "financial" || strIncludes (jsToLower req) "quarter" <;>
      simp [h1, h2, baseAgents]

theorem planAgents_steps (req : String) :
    ∀ spec ∈ planAgents req, 1 ≤ spec.steps ∧ spec.steps ≤ 3 := by
  rw [planAgents_eq]
  cases h1 : strIncludes (jsToLower req) "code" || strIncludes (jsToLower req) "api" <;>
    cases h2 : strIncludes (jsToLower req) "financial" || strIncludes (jsToLower req) "quarter" <;>
      decide

/-! ## Event-name bookkeeping -/

theorem agentBlock_name_mem (spec : AgentSpec) :
    ∀ e ∈ agentBlock spec,
      Event.name e = "agent-start" ∨ Event.name e = "agent-progress" ∨
        Event.name e = "agent-complete" := by
  intro e he
  simp only [agentBlock, List.mem_cons, List.mem_append, List.mem_map,
    List.mem_singleton] at he
  rcases he with rfl | ⟨j, _, rfl⟩ | rfl | h
  · simp [Event.name]
  · simp [Event.name, progEvt]
  · simp [Event.name]
  · cases h

theorem flatMap_agentBlock_count_zero (specs : List AgentSpec) (nm : String)
    (h1 : nm ≠ "agent-start") (h2 : nm ≠ "agent-progress") (h3 : nm ≠ "agent-complete") :
    ((specs.flatMap agentBlock).map Event.name).count nm = 0 := by
  rw [List.count_eq_zero]
  intro hmem
  simp only [List.mem_map, List.mem_flatMap] at hmem
  obtain ⟨e, ⟨spec, _, he⟩, rfl⟩ := hmem
  rcases agentBlock_name_mem spec e he with h | h | h
  exacts [h1 h, h2 h, h3 h]

theorem count_map_progEvt_zero (spec : AgentSpec) (l : List Nat) (nm : String)
    (h : nm ≠ "agent-progress") :
    ((l.map (progEvt spec)).map Event.name).count nm = 0 := by
  rw [List.count_eq_zero]
  intro hmem
  simp only [List.map_map, List.mem_map, Function.comp] at hmem
  obtain ⟨x, _, hx⟩ := hmem
  exact h (hx ▸ rfl)

theorem submit_fst (reg : Registry) (v : JsVal) (fid : String) :
    (submit reg v fid).1 = reg := by
  unfold submit
  split <;> rfl

/-! ## Snapshot invariant helpers -/

theorem okRun_completedRun (spec : AgentSpec) :
    ((completedRun spec).progress != 100 || (completedRun spec).status == "completed") = true := by
  simp [completedRun]

theorem okRun_runState (spec : AgentSpec) (j : Nat) (hj : j < spec.steps)
    (hb : spec.steps ≤ 199) :
    ((runState spec j).progress != 100 || (runState spec j).status == "completed") = true := by
  have hlt := stepProgress_lt j spec.steps hj hb
  simp only [runState, bne_iff_ne, ne_eq, Bool.or_eq_true, decide_eq_true_eq]
  left
  omega

theorem snapsOf_all_ok (specs : List AgentSpec) (hs : ∀ spec ∈ specs, spec.steps ≤ 199) :
    ∀ done, done.all (fun a => a.progress != 100 || a.status == "completed") = true →
      (snapsOf done specs).all
        (fun ags => ags.all (fun a => a.progress != 100 || a.status == "completed")) = true := by
  induction specs with
  | nil => intro done _; simp [snapsOf]
  | cons spec rest ih =>
      intro done hdone
      rw [snapsOf, List.all_append, Bool.and_eq_true]
      constructor
      · rw [List.all_eq_true]
        intro ags hags
        rw [List.mem_map] at hags
        obtain ⟨j, hj, rfl⟩ := hags
        rw [List.mem_range'_1] at hj
        rw [List.all_append, Bool.and_eq_true]
        refine ⟨hdone, ?_⟩
        simp only [List.all_cons, List.all_nil, Bool.and_true]
        exact okRun_runState spec j (by omega) (hs spec (List.mem_cons_self spec rest))
      · refine ih (fun s hs2 => hs s (List.mem_cons_of_mem _ hs2)) _ ?_
        rw [List.all_append, Bool.and_eq_true]
        refine ⟨hdone, ?_⟩
        simp only [List.all_cons, List.all_nil, Bool.and_true]
        exact okRun_completedRun spec

/-! ## Replay bookkeeping -/

theorem replayEvents_names (jid : String) (job : Job) :
    (replayEvents jid job).map Event.name =
      "job-start" :: "plan" ::
        (job.agents.flatMap (fun _ => ["agent-start", "agent-progress", "agent-complete"]) ++
          ["job-complete"]) := by
  simp [replayEvents, Event.name, List.map_flatMap]

theorem oneStep_flatMap_names (specs : List AgentSpec) :
    (((specs.map oneStepSpec).flatMap agentBlock).map Event.name) =
      specs.flatMap (fun _ => ["agent-start", "agent-progress", "agent-complete"]) := by
  induction specs with
  | nil => simp
  | cons spec rest ih =>
      simp [agentBlock, oneStepSpec, progEvt, Event.name, List.range'_one, ih]

theorem flatMap_const_congr {α β : Type} (c : List String) :
    ∀ (l1 : List α) (l2 : List β), l1.length = l2.length →
      l1.flatMap (fun _ => c) = l2.flatMap (fun _ => c) := by
  intro l1
  induction l1 with
  | nil =>
      intro l2 h
      cases l2 with
      | nil => rfl
      | cons b bs => simp at h
  | cons a as ih =>
      intro l2 h
      cases l2 with
      | nil => simp at h
      | cons b bs =>
          simp only [List.flatMap_cons]
          rw [ih bs (by simpa using h)]

theorem planAgents_cons (req : String) :
    ∃ spec rest, planAgents req = spec :: rest ∧ 1 ≤ spec.steps := by
  rw [planAgents_eq]
  cases h2 : strIncludes (jsToLower req) "financial" || strIncludes (jsToLower req) "quarter"
  · refine ⟨plannerSpec,
      researcherSpec ::
        ((if strIncludes (jsToLower req) "code" || strIncludes (jsToLower req) "api" then
          [engineerSpec] else []) ++ baseAgents.drop 2), ?_, by decide⟩
    simp [baseAgents]
  · refine ⟨financeSpec,
      baseAgents.take 2 ++
        ((if strIncludes (jsToLower req) "code" || strIncludes (jsToLower req) "api" then
          [engineerSpec] else []) ++ baseAgents.drop 2), ?_, by decide⟩
    simp

/-! ## Claims -/

/-- C5: For every request text, if its case-folded form contains an
implementation keyword ("code" or "api") an implementation stage appears
strictly after the baseline breakdown and research stages (immediately
after baseline stage 2), if it contains a finance keyword ("financial"
or "quarter") a finance stage appears at the very front, and when both
rules fire the implementation stage is still placed against the original
baseline indices, not shifted relative to the front-inserted finance
stage.  The normal form makes this exact: the engineer sits between the
first two baseline stages and the remaining three, and the finance stage
is prepended in front of everything. -/
theorem C5_plan_insertion (req : String) :
    (planAgents req =
      (if strIncludes (jsToLower req) "financial" || strIncludes (jsToLower req) "quarter" then
        [financeSpec] else []) ++
      (baseAgents.take 2 ++
        (if strIncludes (jsToLower req) "code" || strIncludes (jsToLower req) "api" then
          [engineerSpec] else []) ++
        baseAgents.drop 2)) ∧
    ((strIncludes (jsToLower req) "code" || strIncludes (jsToLower req) "api") = true →
      (planAgents req).indexOf engineerSpec = (planAgents req).indexOf researcherSpec + 1 ∧
      (planAgents req).indexOf researcherSpec = (planAgents req).indexOf plannerSpec + 1) ∧
    ((strIncludes (jsToLower req) "financial" || strIncludes (jsToLower req) "quarter") = true →
      (planAgents req).head? = some financeSpec) := by
  refine ⟨planAgents_eq req, ?_, ?_⟩
  · intro h
    rw [planAgents_eq req]
    cases h2 : strIncludes (jsToLower req) "financial" || strIncludes (jsToLower req) "quarter" <;>
      rw [h] <;> decide
  · intro h
    rw [planAgents_eq req, h]
    cases h2 : strIncludes (jsToLower req) "code" || strIncludes (jsToLower req) "api" <;> decide

/-- Witness for C5 at a request that fires both keyword rules. -/
theorem C5_plan_insertion_witness :
    ((strIncludes (jsToLower "Check the quarterly API numbers") "code" ||
      strIncludes (jsToLower "Check the quarterly API numbers") "api") = true) ∧
    ((strIncludes (jsToLower "Check the quarterly API numbers") "financial" ||
      strIncludes (jsToLower "Check the quarterly API numbers") "quarter") = true) ∧
    (planAgents "Check the quarterly API numbers").indexOf engineerSpec =
      (planAgents "Check the quarterly API numbers").indexOf researcherSpec + 1 ∧
    (planAgents "Check the quarterly API numbers").head? = some financeSpec := by
  refine ⟨by decide, by decide, ?_, ?_⟩
  · exact ((C5_plan_insertion "Check the quarterly API numbers").2.1 (by decide)).1
  · exact (C5_plan_insertion "Check the quarterly API numbers").2.2 (by decide)

/-- C8 counterexample: the empty string is present and is a string, yet
the submission endpoint rejects it (`!request` treats the empty string
as missing), so "validation error iff the field is absent or not a
string" fails. -/
theorem C8_empty_string_rejected :
    (submit [] (JsVal.string "") "id1").2 = Except.error "Missing request string" ∧
    ¬(JsVal.string "" = JsVal.undef ∨ jsIsString (JsVal.string "") = false) := by
  exact ⟨rfl, by decide⟩

/-- C8 amended: the submission endpoint succeeds (returning the fresh
identity) exactly when the request field is a nonempty string, fails
with the validation error otherwise, and never mutates the registry or
starts execution. -/
theorem C8_submit_validation (reg : Registry) (v : JsVal) (fid : String) :
    ((submit reg v fid).2 = Except.ok fid ↔ (jsIsString v = true ∧ v ≠ JsVal.string "")) ∧
    (submit reg v fid).1 = reg ∧
    ((submit reg v fid).2 = Except.ok fid ∨
      (submit reg v fid).2 = Except.error "Missing request string") := by
  refine ⟨?_, submit_fst reg v fid, ?_⟩ <;>
  · unfold submit
    cases v with
    | string s =>
        by_cases hs : s = ""
        · subst hs; simp [jsTruthy, jsIsString]
        · simp [jsTruthy, jsIsString, hs]
    | undef => simp [jsIsString]
    | jsNull => simp [jsIsString]
    | bool b => simp [jsIsString]
    | number n => simp [jsIsString]

/-- C9 counterexample: the override string "abc" parses to NaN, NaN
passes through both `Math.min` and `Math.max` unchanged, so the
effective failure probability is not a number clamped into the unit
interval. -/
theorem C9_nan_escape :
    effectiveFailRate (some "abc") = JSNum.nan ∧
    ¬∃ q : ℚ, effectiveFailRate (some "abc") = JSNum.num q ∧ 0 ≤ q ∧ q ≤ 1 := by
  have h : effectiveFailRate (some "abc") = JSNum.nan := by decide
  refine ⟨h, ?_⟩
  rintro ⟨q, hq, -, -⟩
  rw [h] at hq
  exact JSNum.noConfusion hq

/-- C9 amended: for every override string the effective failure
probability is either a finite number clamped into the unit interval, or
NaN (when the string does not denote a number), and a NaN probability
can never win a failure draw. -/
theorem C9_clamped_or_nan (s : String) :
    (∃ q : ℚ, effectiveFailRate (some s) = JSNum.num q ∧ 0 ≤ q ∧ q ≤ 1) ∨
    (effectiveFailRate (some s) = JSNum.nan ∧ ∀ x : ℚ, jsLtNum x JSNum.nan = false) := by
  have he : effectiveFailRate (some s) = jsMax (.num 0) (jsMin (.num 1) (jsNumber s)) := rfl
  cases h : jsNumber s with
  | nan => right; rw [he, h]; exact ⟨rfl, fun x => rfl⟩
  | posInf =>
      left
      refine ⟨1, ?_, by norm_num, le_refl 1⟩
      rw [he, h]
      simp only [jsMin, jsMax]
      norm_num
  | negInf => left; exact ⟨0, by rw [he, h]; decide, le_refl 0, by norm_num⟩
  | num q =>
      left
      refine ⟨max 0 (min 1 q), ?_, le_max_left 0 _,
        max_le (by norm_num) (min_le_left 1 q)⟩
      rw [he, h]
      simp [jsMin, jsMax]

/-- C6 counterexample: the registry record is created with status
"running" (never "pending"), and submission does not create any
registry record at all, so there is no stored pending state and no
pending-to-running transition on the stored record. -/
theorem C6_no_pending_state :
    (executeJob "job1" "hello" (JSNum.num 0) zeroRand 0).created.status = "running" ∧
    (executeJob "job1" "hello" (JSNum.num 0) zeroRand 0).created.status ≠ "pending" ∧
    (executeJob "job1" "hello" (JSNum.num 0) zeroRand 0).created.agents = [] ∧
    (submit [] (JsVal.string "hello") "job1").1 = [] := by
  have hc := runJob_created "job1" "hello" (planAgents "hello")
    (fun i s => jsLtNum (zeroRand i s) (JSNum.num 0)) 0
  refine ⟨?_, ?_, ?_, submit_fst [] (JsVal.string "hello") "job1"⟩ <;>
    · show _
      rw [show (executeJob "job1" "hello" (JSNum.num 0) zeroRand 0).created =
        createdJob "job1" 0 from hc]
      decide

/-- C6 amended: submission allocates an identity without touching the
registry; the registry record for a job is created at stream start
already in status "running" with an empty AgentRun list, stays
"running" at every suspend point, and the final record is "completed"
or "error" — the lifecycle is running to completed-or-error, with no
stored pending state. -/
theorem C6_lifecycle (req jid : String) (p : JSNum) (rand : Nat → Nat → ℚ) (t : Nat)
    (reg : Registry) (v : JsVal) (fid : String) :
    (executeJob jid req p rand t).created.status = "running" ∧
    (executeJob jid req p rand t).created.agents = [] ∧
    ((executeJob jid req p rand t).snapshots.all (fun j => j.status == "running")) = true ∧
    ((executeJob jid req p rand t).job.status = "completed" ∨
      (executeJob jid req p rand t).job.status = "error") ∧
    (submit reg v fid).1 = reg := by
  have hc := runJob_created jid req (planAgents req) (fun i s => jsLtNum (rand i s) p) t
  refine ⟨?_, ?_, ?_, ?_, submit_fst reg v fid⟩
  · rw [show (executeJob jid req p rand t).created = createdJob jid t from hc]; rfl
  · rw [show (executeJob jid req p rand t).created = createdJob jid t from hc]; rfl
  · show ((runJob jid req (planAgents req) (fun i s => jsLtNum (rand i s) p) t).snapshots.all
      (fun j => j.status == "running")) = true
    simp only [runJob]
    cases h : (runAgentsLoop (fun i s => jsLtNum (rand i s) p) 0 []
        (planAgents req)).failPoint <;>
      · simp only
        rw [List.all_cons, Bool.and_eq_true]
        refine ⟨rfl, ?_⟩
        rw [List.all_eq_true]
        intro x hx
        rw [List.mem_map] at hx
        obtain ⟨ags, _, rfl⟩ := hx
        rfl
  · cases h : (runAgentsLoop (fun i s => jsLtNum (rand i s) p) 0 []
        (planAgents req)).failPoint with
    | none =>
        left
        rw [show executeJob jid req p rand t = runJob jid req (planAgents req)
          (fun i s => jsLtNum (rand i s) p) t from rfl,
          runJob_eq_none jid req (planAgents req) _ t h]
    | some pt =>
        right
        obtain ⟨pa, ps⟩ := pt
        obtain ⟨i, spec, m, -, -, -, -, heq⟩ :=
          runJob_eq_some jid req (planAgents req) _ t pa ps h
        rw [show executeJob jid req p rand t = runJob jid req (planAgents req)
          (fun i s => jsLtNum (rand i s) p) t from rfl, heq]

/-- C4: with failure probability 0 (all draws are nonnegative so the
draw never wins against 0), the event sequence contains exactly one
job-complete, which is the final event, and zero job-error; every
AgentRun ends with status "completed" and progress 100; and the stored
synthesized summary is the newline-join of each agent output summary in
execution order. -/
theorem C4_success_run (req jid : String) (rand : Nat → Nat → ℚ) (t : Nat)
    (h0 : ∀ i s, 0 ≤ rand i s) :
    (((executeJob jid req (JSNum.num 0) rand t).events.map Event.name).count "job-complete"
        = 1) ∧
    (((executeJob jid req (JSNum.num 0) rand t).events.map Event.name).count "job-error"
        = 0) ∧
    (∃ res, (executeJob jid req (JSNum.num 0) rand t).events.getLast? =
        some (Event.jobComplete jid (some res)) ∧
      (executeJob jid req (JSNum.num 0) rand t).job.result = some res ∧
      res.synthesizedSummary = String.intercalate "\n"
        ((planAgents req).map (fun spec => spec.name ++ " completed: " ++ spec.role))) ∧
    ((executeJob jid req (JSNum.num 0) rand t).job.agents.all
      (fun a => a.status == "completed" && a.progress == 100)) = true := by
  have hf : ∀ i s, jsLtNum (rand i s) (JSNum.num 0) = false :=
    fun i s => jsLtNum_zero (rand i s) (h0 i s)
  have hfp := runAgentsLoop_failPoint_none (fun i s => jsLtNum (rand i s) (JSNum.num 0))
    hf (planAgents req) 0 []
  have He := runJob_eq_none jid req (planAgents req)
    (fun i s => jsLtNum (rand i s) (JSNum.num 0)) t hfp
  rw [show executeJob jid req (JSNum.num 0) rand t = runJob jid req (planAgents req)
    (fun i s => jsLtNum (rand i s) (JSNum.num 0)) t from rfl, He]
  refine ⟨?_, ?_, ⟨successResult req (planAgents req), ?_, rfl, rfl⟩, ?_⟩
  · simp only [List.map_cons, List.map_append, List.count_cons, List.count_append]
    rw [flatMap_agentBlock_count_zero (planAgents req) "job-complete"
      (by decide) (by decide) (by decide)]
    simp [Event.name]
  · simp only [List.map_cons, List.map_append, List.count_cons, List.count_append]
    rw [flatMap_agentBlock_count_zero (planAgents req) "job-error"
      (by decide) (by decide) (by decide)]
    simp [Event.name]
  · show (Event.jobStart jid t :: Event.plan (planAgents req) ::
      ((planAgents req).flatMap agentBlock ++
        [Event.jobComplete jid (some (successResult req (planAgents req)))])).getLast? = _
    rw [show Event.jobStart jid t :: Event.plan (planAgents req) ::
      ((planAgents req).flatMap agentBlock ++
        [Event.jobComplete jid (some (successResult req (planAgents req)))]) =
      (Event.jobStart jid t :: Event.plan (planAgents req) ::
        (planAgents req).flatMap agentBlock) ++
        [Event.jobComplete jid (some (successResult req (planAgents req)))] from by simp]
    exact List.getLast?_concat _
  · rw [List.all_eq_true]
    intro a ha
    rw [List.mem_map] at ha
    obtain ⟨spec, hspec, rfl⟩ := ha
    have h1 := (planAgents_steps req spec hspec).1
    simp [completedRun, runState, stepProgress_self spec.steps h1]

/-- Witness for C4 with the all-zero random source. -/
theorem C4_success_run_witness :
    (((executeJob "j1" "survey" (JSNum.num 0) zeroRand 3).events.map Event.name).count
        "job-complete" = 1) ∧
    (((executeJob "j1" "survey" (JSNum.num 0) zeroRand 3).events.map Event.name).count
        "job-error" = 0) ∧
    ((executeJob "j1" "survey" (JSNum.num 0) zeroRand 3).job.agents.all
      (fun a => a.status == "completed" && a.progress == 100)) = true := by
  have h := C4_success_run "survey" "j1" zeroRand 3 (fun i s => le_refl 0)
  exact ⟨h.1, h.2.1, h.2.2.2⟩

/-- C10: in a failure-free live execution each planned agent emits
exactly its declared step count of agent-progress events, one per step
numbered 1..steps in the log line, each carrying progress
round(step / totalSteps * 100): the full event sequence is job-start,
plan, then per agent agent-start, that exact progress block, and
agent-complete, closed by job-complete. -/
theorem C10_progress_steps (req jid : String) (p : JSNum) (rand : Nat → Nat → ℚ) (t : Nat)
    (h : ∀ i s, jsLtNum (rand i s) p = false) :
    (executeJob jid req p rand t).events =
      Event.jobStart jid t :: Event.plan (planAgents req) ::
        ((planAgents req).flatMap (fun spec =>
          Event.agentStart (initRun spec) ::
            ((List.range' 1 spec.steps).map (fun k =>
              Event.agentProgress spec.id (stepProgress k spec.steps)
                (mkLog spec.name k spec.steps)) ++
              [Event.agentComplete spec.id (some (outputOf spec))])) ++
          [Event.jobComplete jid (some (successResult req (planAgents req)))]) := by
  have hfp := runAgentsLoop_failPoint_none (fun i s => jsLtNum (rand i s) p) h
    (planAgents req) 0 []
  have He := runJob_eq_none jid req (planAgents req) (fun i s => jsLtNum (rand i s) p) t hfp
  rw [show executeJob jid req p rand t = runJob jid req (planAgents req)
    (fun i s => jsLtNum (rand i s) p) t from rfl, He]
  have hab : agentBlock = fun spec =>
      Event.agentStart (initRun spec) ::
        ((List.range' 1 spec.steps).map (fun k =>
          Event.agentProgress spec.id (stepProgress k spec.steps)
            (mkLog spec.name k spec.steps)) ++
          [Event.agentComplete spec.id (some (outputOf spec))]) :=
    funext fun spec => by simp [agentBlock, progEvt]
  rw [hab]

/-- Witness for C10 with the all-zero random source and probability 0. -/
theorem C10_progress_steps_witness :
    (executeJob "j1" "survey" (JSNum.num 0) zeroRand 3).events =
      Event.jobStart "j1" 3 :: Event.plan (planAgents "survey") ::
        ((planAgents "survey").flatMap (fun spec =>
          Event.agentStart (initRun spec) ::
            ((List.range' 1 spec.steps).map (fun k =>
              Event.agentProgress spec.id (stepProgress k spec.steps)
                (mkLog spec.name k spec.steps)) ++
              [Event.agentComplete spec.id (some (outputOf spec))])) ++
          [Event.jobComplete "j1" (some (successResult "survey" (planAgents "survey")))]) :=
  C10_progress_steps "survey" "j1" (JSNum.num 0) zeroRand 3
    (fun i s => jsLtNum_zero (zeroRand i s) (le_refl 0))

/-- C3: whenever a failure draw succeeds at some agent and step, the
engine marks that AgentRun "failed" and the job "error", emits exactly
one job-error event (identifying the failing agent by id and the step
in the message) as the final event, and terminates immediately: the
event sequence consists of the blocks of the agents before the failing
one, the failing agent start and its partial progress, then job-error —
nothing for any later agent and no job-complete.  With failure
probability 1 (every draw in [0,1) wins), the sequence has exactly one
job-error, zero job-complete and zero agent-complete events. -/
theorem C3_failure_terminates (req jid : String) (p : JSNum) (rand : Nat → Nat → ℚ) (t : Nat)
    (hr : ∀ i s, rand i s < 1) :
    (∀ a s, (executeJob jid req p rand t).failPoint = some (a, s) →
      ∃ spec, (planAgents req).get? a = some spec ∧
        (executeJob jid req p rand t).job.status = "error" ∧
        ((executeJob jid req p rand t).job.agents.get? a).map AgentRun.status =
          some "failed" ∧
        (executeJob jid req p rand t).job.agents.length = a + 1 ∧
        (executeJob jid req p rand t).events =
          Event.jobStart jid t :: Event.plan (planAgents req) ::
            (((planAgents req).take a).flatMap agentBlock ++
              (Event.agentStart (initRun spec) ::
                ((List.range' 1 (s - 1)).map (progEvt spec) ++
                  [Event.jobError (mkErrMsg spec.name s) (some spec.id)]))) ∧
        ((executeJob jid req p rand t).events.map Event.name).count "job-error" = 1 ∧
        ((executeJob jid req p rand t).events.map Event.name).count "job-complete" = 0 ∧
        (executeJob jid req p rand t).events.getLast? =
          some (Event.jobError (mkErrMsg spec.name s) (some spec.id))) ∧
    (((executeJob jid req (JSNum.num 1) rand t).events.map Event.name).count "job-error"
        = 1 ∧
      ((executeJob jid req (JSNum.num 1) rand t).events.map Event.name).count "job-complete"
        = 0 ∧
      ((executeJob jid req (JSNum.num 1) rand t).events.map Event.name).count "agent-complete"
        = 0) := by
  constructor
  · intro a s hfp
    rw [show executeJob jid req p rand t = runJob jid req (planAgents req)
      (fun i s => jsLtNum (rand i s) p) t from rfl] at hfp ⊢
    rw [runJob_failPoint] at hfp
    obtain ⟨i, spec, m, hget, ha, hm, hs, heq⟩ :=
      runJob_eq_some jid req (planAgents req) (fun i s => jsLtNum (rand i s) p) t a s hfp
    subst ha
    obtain ⟨hi, -⟩ := List.get?_eq_some.mp hget
    have hlen : (((planAgents req).take a).map completedRun).length = a := by
      rw [List.length_map, List.length_take]
      omega
    have hget2 : ((((planAgents req).take a).map completedRun) ++
        [{ runState spec m with status := "failed" }]).get? a =
        some { runState spec m with status := "failed" } := by
      nth_rewrite 2 [← hlen]
      exact List.get?_concat_length _ _
    have hc1 : ((((planAgents req).take a).flatMap agentBlock).map Event.name).count
        "job-error" = 0 :=
      flatMap_agentBlock_count_zero _ _ (by decide) (by decide) (by decide)
    have hc1c : ((((planAgents req).take a).flatMap agentBlock).map Event.name).count
        "job-complete" = 0 :=
      flatMap_agentBlock_count_zero _ _ (by decide) (by decide) (by decide)
    have hc2 : (((List.range' 1 m).map (progEvt spec)).map Event.name).count "job-error"
        = 0 := count_map_progEvt_zero spec _ _ (by decide)
    have hc2c : (((List.range' 1 m).map (progEvt spec)).map Event.name).count "job-complete"
        = 0 := count_map_progEvt_zero spec _ _ (by decide)
    refine ⟨spec, hget, ?_, ?_, ?_, ?_, ?_, ?_, ?_⟩
    · rw [heq]
    · rw [heq]
      simp only
      rw [hget2]
      rfl
    · rw [heq]
      simp only
      rw [List.length_append, hlen]
      rfl
    · rw [heq]
      subst hs
      simp
    · rw [heq]
      simp only [List.map_cons, List.map_append, List.count_cons, List.count_append,
        hc1, hc2, Event.name]
      simp
    · rw [heq]
      simp only [List.map_cons, List.map_append, List.count_cons, List.count_append,
        hc1c, hc2c, Event.name]
      simp
    · rw [heq]
      simp only
      rw [show Event.jobStart jid t :: Event.plan (planAgents req) ::
        (((planAgents req).take a).flatMap agentBlock ++
          (Event.agentStart (initRun spec) ::
            ((List.range' 1 m).map (progEvt spec) ++
              [Event.jobError (mkErrMsg spec.name s) (some spec.id)]))) =
        (Event.jobStart jid t :: Event.plan (planAgents req) ::
          (((planAgents req).take a).flatMap agentBlock ++
            (Event.agentStart (initRun spec) :: (List.range' 1 m).map (progEvt spec)))) ++
          [Event.jobError (mkErrMsg spec.name s) (some spec.id)] from by simp]
      exact List.getLast?_concat _
  · obtain ⟨spec0, rest0, hplan, hsteps0⟩ := planAgents_cons req
    have h1 : ∀ i s, jsLtNum (rand i s) (JSNum.num 1) = true :=
      fun i s => jsLtNum_one (rand i s) (hr i s)
    have hfp1 : (runAgentsLoop (fun i s => jsLtNum (rand i s) (JSNum.num 1)) 0 []
        (planAgents req)).failPoint = some (0, 1) := by
      rw [hplan]
      exact runAgentsLoop_cons_failPoint_one _ (fun i s => h1 i s) spec0 rest0 0 [] hsteps0
    obtain ⟨i, spec, m, hget, ha, hm, hs, heq⟩ :=
      runJob_eq_some jid req (planAgents req)
        (fun i s => jsLtNum (rand i s) (JSNum.num 1)) t 0 1 hfp1
    have hi0 : i = 0 := ha.symm
    subst hi0
    have hm0 : m = 0 := by omega
    subst hm0
    have hev : (executeJob jid req (JSNum.num 1) rand t).events =
        [Event.jobStart jid t, Event.plan (planAgents req),
         Event.agentStart (initRun spec), Event.jobError (mkErrMsg spec.name 1)
           (some spec.id)] := by
      rw [show executeJob jid req (JSNum.num 1) rand t = runJob jid req (planAgents req)
        (fun i s => jsLtNum (rand i s) (JSNum.num 1)) t from rfl, heq]
      simp
    rw [hev]
    refine ⟨?_, ?_, ?_⟩ <;> simp [Event.name, List.count_cons, List.count_nil]

/-- Witness for C3: with the all-zero random source and probability 1
the very first draw fails, the job ends in error and exactly one
job-error event is emitted. -/
theorem C3_failure_terminates_witness :
    ((∀ i s : Nat, zeroRand i s < 1) ∧
      ((executeJob "j1" "survey" (JSNum.num 1) zeroRand 0).events.map Event.name).count
        "job-error" = 1 ∧
      (executeJob "j1" "survey" (JSNum.num 1) zeroRand 0).job.status = "error") := by
  have hr : ∀ i s : Nat, zeroRand i s < 1 := fun i s => by norm_num [zeroRand]
  have h := C3_failure_terminates "survey" "j1" (JSNum.num 1) zeroRand 0 hr
  obtain ⟨spec, -, hstat, -⟩ := h.1 0 1 (by decide)
  exact ⟨hr, h.2.1, hstat⟩

theorem cons_map_concat {α β γ : Type} (a : γ) (f : β → γ) (s : List β) (g : α → β)
    (r : List α) (x : α) :
    a :: (s ++ (r ++ [x]).map g).map f = (a :: (s ++ r.map g).map f) ++ [f (g x)] := by
  simp

theorem okRun_failed (spec : AgentSpec) (m : Nat) (hm : m < spec.steps)
    (hb : spec.steps ≤ 199) :
    (({ runState spec m with status := "failed" } : AgentRun).progress != 100 ||
      ({ runState spec m with status := "failed" } : AgentRun).status == "completed")
      = true := by
  have hlt := stepProgress_lt m spec.steps hm hb
  simp only [runState, bne_iff_ne, ne_eq, Bool.or_eq_true, decide_eq_true_eq]
  left
  omega

/-- C1: at the creation point, at every suspend point, and in the final
record, every AgentRun with progress 100 has status "completed" (a run
whose status is still "running" — or "failed" — never shows progress
100, because round(step/totalSteps*100) stays below 100 before the last
step for the step counts the planner produces); and when a failure draw
succeeds at agent `a`, step `s`, the final record freezes that run at
the values it held at the point of failure: status "failed", progress
and log lines exactly those written by the `s - 1` completed steps,
identical to the run state at the last suspend point except for the
status. -/
theorem C1_progress_invariant (req jid : String) (p : JSNum) (rand : Nat → Nat → ℚ)
    (t : Nat) :
    (((executeJob jid req p rand t).snapshots ++ [(executeJob jid req p rand t).job]).all
      (fun j => j.agents.all (fun a => a.progress != 100 || a.status == "completed")))
      = true ∧
    (∀ a s, (executeJob jid req p rand t).failPoint = some (a, s) →
      ∃ spec, (planAgents req).get? a = some spec ∧
        (executeJob jid req p rand t).job.agents.get? a =
          some { id := spec.id, name := spec.name, role := spec.role, status := "failed",
                 progress := stepProgress (s - 1) spec.steps,
                 logs := (List.range' 1 (s - 1)).map (fun k => mkLog spec.name k spec.steps),
                 output := none } ∧
        (∃ snap, (executeJob jid req p rand t).snapshots.getLast? = some snap ∧
          snap.agents.get? a =
            some { id := spec.id, name := spec.name, role := spec.role, status := "running",
                   progress := stepProgress (s - 1) spec.steps,
                   logs := (List.range' 1 (s - 1)).map (fun k =>
                     mkLog spec.name k spec.steps),
                   output := none })) := by
  have hb : ∀ spec ∈ planAgents req, spec.steps ≤ 199 :=
    fun spec h => by have := (planAgents_steps req spec h).2; omega
  constructor
  · rw [show executeJob jid req p rand t = runJob jid req (planAgents req)
      (fun i s => jsLtNum (rand i s) p) t from rfl]
    cases hfp : (runAgentsLoop (fun i s => jsLtNum (rand i s) p) 0 []
        (planAgents req)).failPoint with
    | none =>
        rw [runJob_eq_none jid req (planAgents req) (fun i s => jsLtNum (rand i s) p) t hfp]
        simp only
        rw [List.all_append, Bool.and_eq_true]
        constructor
        · rw [List.all_cons, Bool.and_eq_true]
          refine ⟨rfl, ?_⟩
          have hs := snapsOf_all_ok (planAgents req) hb [] rfl
          rw [List.all_eq_true] at hs
          rw [List.all_eq_true]
          intro x hx
          rw [List.mem_map] at hx
          obtain ⟨ags, hags, rfl⟩ := hx
          exact hs ags hags
        · simp only [List.all_cons, List.all_nil, Bool.and_true]
          rw [List.all_eq_true]
          intro x hx
          rw [List.mem_map] at hx
          obtain ⟨spec, hspec, rfl⟩ := hx
          exact okRun_completedRun spec
    | some pt =>
        obtain ⟨pa, ps⟩ := pt
        obtain ⟨i, spec, m, hget, ha, hm, hs, heq⟩ :=
          runJob_eq_some jid req (planAgents req)
            (fun i s => jsLtNum (rand i s) p) t pa ps hfp
        rw [heq]
        simp only
        have hmem : spec ∈ planAgents req := List.get?_mem hget
        have htake : ∀ spec2 ∈ (planAgents req).take i, spec2.steps ≤ 199 :=
          fun spec2 h2 => hb spec2 (List.take_subset _ _ h2)
        have hdone : (((planAgents req).take i).map completedRun).all
            (fun a => a.progress != 100 || a.status == "completed") = true := by
          rw [List.all_eq_true]
          intro x hx
          rw [List.mem_map] at hx
          obtain ⟨spec2, _, rfl⟩ := hx
          exact okRun_completedRun spec2
        rw [List.all_append, Bool.and_eq_true]
        constructor
        · rw [List.all_cons, Bool.and_eq_true]
          refine ⟨rfl, ?_⟩
          rw [List.all_eq_true]
          intro x hx
          rw [List.mem_map] at hx
          obtain ⟨ags, hags, rfl⟩ := hx
          rw [List.mem_append] at hags
          rcases hags with hags | hags
          · have hsl := snapsOf_all_ok ((planAgents req).take i) htake [] rfl
            rw [List.all_eq_true] at hsl
            exact hsl ags hags
          · rw [List.mem_map] at hags
            obtain ⟨j, hj, rfl⟩ := hags
            rw [List.mem_range'_1] at hj
            show ((((planAgents req).take i).map completedRun ++ [runState spec j]).all
              (fun a => a.progress != 100 || a.status == "completed")) = true
            rw [List.all_append, Bool.and_eq_true]
            refine ⟨hdone, ?_⟩
            simp only [List.all_cons, List.all_nil, Bool.and_true]
            exact okRun_runState spec j (by omega) (hb spec hmem)
        · simp only [List.all_cons, List.all_nil, Bool.and_true]
          rw [List.all_append, Bool.and_eq_true]
          refine ⟨hdone, ?_⟩
          simp only [List.all_cons, List.all_nil, Bool.and_true]
          exact okRun_failed spec m hm (hb spec hmem)
  · intro a s hfp
    rw [show executeJob jid req p rand t = runJob jid req (planAgents req)
      (fun i s => jsLtNum (rand i s) p) t from rfl] at hfp ⊢
    rw [runJob_failPoint] at hfp
    obtain ⟨i, spec, m, hget, ha, hm, hs, heq⟩ :=
      runJob_eq_some jid req (planAgents req) (fun i s => jsLtNum (rand i s) p) t a s hfp
    subst ha
    obtain ⟨hi, -⟩ := List.get?_eq_some.mp hget
    have hlen : (((planAgents req).take a).map completedRun).length = a := by
      rw [List.length_map, List.length_take]
      omega
    refine ⟨spec, hget, ?_, ?_⟩
    · rw [heq]
      simp only
      have hget2 : ((((planAgents req).take a).map completedRun) ++
          [{ runState spec m with status := "failed" }]).get? a =
          some { runState spec m with status := "failed" } := by
        nth_rewrite 2 [← hlen]
        exact List.get?_concat_length _ _
      rw [hget2]
      subst hs
      simp [runState]
    · rw [heq]
      simp only
      refine ⟨{ createdJob jid t with agents := ((planAgents req).take a).map completedRun ++ [runState spec m] }, ?_, ?_⟩
      · rw [show (List.range' 0 (m + 1)) = List.range' 0 m ++ [m] from by
          rw [List.range'_concat]; norm_num]
        rw [cons_map_concat]
        exact List.getLast?_concat _
      · show ((((planAgents req).take a).map completedRun ++ [runState spec m]).get? a) = _
        have hget2 : ((((planAgents req).take a).map completedRun) ++
            [runState spec m]).get? a = some (runState spec m) := by
          nth_rewrite 2 [← hlen]
          exact List.get?_concat_length _ _
        rw [hget2]
        subst hs
        simp [runState]

/-- Witness for C1: with failure probability 1 the first agent fails at
step 1; the invariant holds on the whole trace and the failed run is
frozen with progress and logs of zero completed steps. -/
theorem C1_progress_invariant_witness :
    (((executeJob "j1" "survey" (JSNum.num 1) zeroRand 0).snapshots ++
        [(executeJob "j1" "survey" (JSNum.num 1) zeroRand 0).job]).all
      (fun j => j.agents.all (fun a => a.progress != 100 || a.status == "completed")))
      = true ∧
    ∃ spec, (planAgents "survey").get? 0 = some spec ∧
      (executeJob "j1" "survey" (JSNum.num 1) zeroRand 0).job.agents.get? 0 =
        some { id := spec.id, name := spec.name, role := spec.role, status := "failed",
               progress := stepProgress 0 spec.steps,
               logs := (List.range' 1 0).map (fun k => mkLog spec.name k spec.steps),
               output := none } := by
  have h := C1_progress_invariant "survey" "j1" (JSNum.num 1) zeroRand 0
  refine ⟨h.1, ?_⟩
  obtain ⟨spec, hget, hrec, -⟩ := h.2 0 1 (by decide)
  exact ⟨spec, hget, hrec⟩

/-- C2 counterexample: replaying the completed baseline job emits one
agent-progress per agent, while the live run of the same plan emits one
per step (three for the researcher), so the two event-name sequences
differ. -/
theorem C2_replay_names_differ :
    ((replayEvents "j1" (executeJob "j1" "survey" (JSNum.num 0) zeroRand 7).job).map
      Event.name) ≠
    ((executeJob "j1" "survey" (JSNum.num 0) zeroRand 7).events.map Event.name) := by
  decide

/-- C2 amended: replaying a completed job emits the event-name sequence
of a fresh successful live run of the equivalent single-step plan (the
same agents with step count 1): job-start, plan, then per agent in plan
order agent-start, one agent-progress, agent-complete, then
job-complete, reconstructed only from the stored job record. -/
theorem C2_replay_names (req jid jid2 req2 : String) (p : JSNum) (rand : Nat → Nat → ℚ)
    (t t2 : Nat) (h : (executeJob jid req p rand t).failPoint = none) :
    (replayEvents jid (executeJob jid req p rand t).job).map Event.name =
      (runJob jid2 req2 ((planAgents req).map oneStepSpec) neverFail t2).events.map
        Event.name := by
  rw [show executeJob jid req p rand t = runJob jid req (planAgents req)
    (fun i s => jsLtNum (rand i s) p) t from rfl] at h ⊢
  rw [runJob_failPoint] at h
  rw [runJob_eq_none jid req (planAgents req) (fun i s => jsLtNum (rand i s) p) t h]
  have hfr : (runAgentsLoop neverFail 0 [] ((planAgents req).map oneStepSpec)).failPoint
      = none := runAgentsLoop_failPoint_none neverFail (fun i s => rfl) _ 0 []
  rw [runJob_eq_none jid2 req2 ((planAgents req).map oneStepSpec) neverFail t2 hfr]
  simp only
  rw [replayEvents_names]
  rw [List.map_cons, List.map_cons, List.map_append]
  rw [oneStep_flatMap_names]
  simp only [Event.name, List.map_cons, List.map_nil]
  rw [flatMap_const_congr ["agent-start", "agent-progress", "agent-complete"]
    ((planAgents req).map completedRun) (planAgents req) (by rw [List.length_map])]

/-- Witness for C2 on the baseline plan. -/
theorem C2_replay_names_witness :
    ((executeJob "j1" "survey" (JSNum.num 0) zeroRand 7).failPoint = none) ∧
    ((replayEvents "j1" (executeJob "j1" "survey" (JSNum.num 0) zeroRand 7).job).map
        Event.name =
      (runJob "j2" "other" ((planAgents "survey").map oneStepSpec) neverFail 9).events.map
        Event.name) :=
  ⟨by decide, C2_replay_names "survey" "j1" "j2" "other" (JSNum.num 0) zeroRand 7 9
    (by decide)⟩

set_option maxRecDepth 8192 in
/-- C7 counterexample: a job whose registry record has terminal status
"error" is not immutable — opening another stream against that identity
falls through the completed-only replay check and starts a fresh
execution that overwrites the stored record. -/
theorem C7_error_job_overwritten :
    (executeJob "j1" "survey" (JSNum.num 1) zeroRand 0).job.status = "error" ∧
    regGet ((streamOpen
        (regSet [] "j1" (executeJob "j1" "survey" (JSNum.num 1) zeroRand 0).job)
        "j1" none none zeroRand 5).1) "j1" ≠
      some (executeJob "j1" "survey" (JSNum.num 1) zeroRand 0).job := by
  constructor
  · decide
  · decide

/-- C7 amended: a registry record with terminal status "completed" is
immutable under any further stream open against its identity: the
registry is returned unchanged, lookup still yields the same record,
and the subscriber receives the replay of that record. -/
theorem C7_completed_immutable (reg : Registry) (jid : String) (job : Job)
    (h : regGet reg jid = some job) (hc : job.status = "completed")
    (q f : Option String) (rand : Nat → Nat → ℚ) (now : Nat) :
    (streamOpen reg jid q f rand now).1 = reg ∧
    (streamOpen reg jid q f rand now).2 = replayEvents jid job ∧
    regGet (streamOpen reg jid q f rand now).1 jid = some job := by
  have hs : streamOpen reg jid q f rand now = (reg, replayEvents jid job) := by
    simp only [streamOpen, h]
    rw [if_pos hc]
  rw [hs]
  exact ⟨rfl, rfl, h⟩

set_option maxRecDepth 8192 in
/-- Witness for C7: a concrete completed job stays untouched when a new
stream is opened against its identity. -/
theorem C7_completed_immutable_witness :
    (regGet (regSet [] "j1" (executeJob "j1" "survey" (JSNum.num 0) zeroRand 7).job) "j1" =
      some (executeJob "j1" "survey" (JSNum.num 0) zeroRand 7).job) ∧
    ((executeJob "j1" "survey" (JSNum.num 0) zeroRand 7).job.status = "completed") ∧
    (streamOpen (regSet [] "j1" (executeJob "j1" "survey" (JSNum.num 0) zeroRand 7).job)
        "j1" (some "x") (some "0.5") zeroRand 9).1 =
      regSet [] "j1" (executeJob "j1" "survey" (JSNum.num 0) zeroRand 7).job :=
  ⟨by decide, by decide,
    (C7_completed_immutable
      (regSet [] "j1" (executeJob "j1" "survey" (JSNum.num 0) zeroRand 7).job) "j1"
      (executeJob "j1" "survey" (JSNum.num 0) zeroRand 7).job (by decide) (by decide)
      (some "x") (some "0.5") zeroRand 9).1⟩
